import Mathlib

/-
Verification of the company-directory application (src/src/App.tsx,
src/src/ui/custom-select.tsx, src/src/ui/custom-serach.tsx).

JavaScript strings are modelled as Lean `String`s (lists of characters);
`String.prototype.toLowerCase` is modelled as per-character `Char.toLower`,
and `String.prototype.includes` is modelled by an executable substring
scan (`charsIncludes`) that checks every starting position, exactly as the
built-in does observationally.
-/

/-- JS `s.toLowerCase()`: lower-case every character. -/
def jsToLower (s : String) : String := ⟨s.data.map Char.toLower⟩

/-- Does `need` occur at the very start of `hay`? -/
def charsStartsWith : List Char → List Char → Bool
  | [], _ => true
  | _ :: _, [] => false
  | a :: as, b :: bs => a == b && charsStartsWith as bs

/-- JS `hay.includes(need)`: does `need` occur contiguously anywhere in `hay`? -/
def charsIncludes : List Char → List Char → Bool
  | [], need => need.isEmpty
  | hay@(_ :: t), need => charsStartsWith need hay || charsIncludes t need

/-- JS `hay.includes(need)` on strings. -/
def jsIncludes (hay need : String) : Bool := charsIncludes hay.data need.data

/-- The mathematical statement "`need` is a contiguous substring of `hay`". -/
def SubstringOf (need hay : List Char) : Prop := ∃ l r, hay = l ++ need ++ r

/-- The company record (`Company` in src/src/types; fields used by App.tsx). -/
structure Company where
  owner : String
  company : String
  city : String
  email : String
deriving Repr, DecidableEq

/-- App.tsx lines 125-127: the text-search condition of `filteredData`. -/
def matchesSearch (globalFilter : String) (c : Company) : Bool :=
  jsIncludes (jsToLower c.owner) (jsToLower globalFilter) ||
  jsIncludes (jsToLower c.company) (jsToLower globalFilter)

/-- App.tsx line 128: `locationFilter ? c.city === locationFilter : true`
(an empty JS string is falsy). -/
def matchesCity (locationFilter : String) (c : Company) : Bool :=
  if locationFilter = "" then true else c.city == locationFilter

/-- App.tsx line 129: `companyFilter ? c.company === companyFilter : true`. -/
def matchesCompany (companyFilter : String) (c : Company) : Bool :=
  if companyFilter = "" then true else c.company == companyFilter

/-- App.tsx lines 122-132: the memoised `filteredData` pipeline over the
currently displayed list `companies`. -/
def filteredData (globalFilter locationFilter companyFilter : String)
    (companies : List Company) : List Company :=
  companies.filter (fun c =>
    matchesSearch globalFilter c && matchesCity locationFilter c &&
      matchesCompany companyFilter c)

/-- The view state of the `App` component (App.tsx lines 29-38): the fetched
dataset, the displayed prefix, the page counter, the loading flag, the
has-more flag, the error message, the three filter inputs and the end-of-list
message flag. -/
structure AppState where
  allCompanies : List Company
  companies : List Company
  page : Nat
  loading : Bool
  hasMore : Bool
  error : Option String
  globalFilter : String
  locationFilter : String
  companyFilter : String
  showEndMessage : Bool
deriving Repr, DecidableEq

/-- The initial values of the `useState` hooks in App.tsx lines 29-38. -/
def initialAppState : AppState :=
  { allCompanies := [], companies := [], page := 1, loading := false,
    hasMore := true, error := none, globalFilter := "", locationFilter := "",
    companyFilter := "", showEndMessage := false }

/-- App.tsx line 68: `const pageSize = 10`. -/
def pageSize : Nat := 10

/-- App.tsx lines 65-78, `loadPage`: returns early when the dataset is empty
or `hasMore` is false; otherwise displays the prefix of length
`end = min(page * pageSize, allCompanies.length)` (JS `slice(0, end)`),
recomputes `hasMore` as `end < allCompanies.length`, and turns the loading
flag on (a 1000 ms timer turns it back off). -/
def loadPage (s : AppState) : AppState :=
  if s.allCompanies.length = 0 ∨ s.hasMore = false then s
  else
    { s with
      companies :=
        s.allCompanies.take (min (s.page * pageSize) s.allCompanies.length),
      hasMore :=
        decide (min (s.page * pageSize) s.allCompanies.length <
          s.allCompanies.length),
      loading := true }

/-- One scroll-triggered step: the 1000 ms loading timer has elapsed
(`setLoading(false)`, App.tsx line 76), and the intersection-observer callback
(App.tsx lines 101-105) increments the page only when `hasMore` holds, after
which the effect at App.tsx lines 80-82 runs `loadPage` again. -/
def scrollStep (s : AppState) : AppState :=
  if s.hasMore = true then
    loadPage { s with page := s.page + 1, loading := false }
  else
    { s with loading := false }

/-- The paging trajectory once the fetch has stored the dataset `all`:
state 0 is the state after the effect at App.tsx lines 80-82 first runs (it
calls `loadPage` only when the dataset is non-empty), and each later state
follows one scroll step. -/
def pagingState (all : List Company) : Nat → AppState
  | 0 =>
      if all.length = 0 then { initialAppState with allCompanies := all }
      else loadPage { initialAppState with allCompanies := all }
  | n + 1 => scrollStep (pagingState all n)

/-- The batch of records newly revealed by scroll step `n + 1`. -/
def nextChunk (all : List Company) (n : Nat) : List Company :=
  ((pagingState all (n + 1)).companies).drop
    (pagingState all n).companies.length

/-- A sample record used to instantiate hypotheses of proved theorems. -/
def sampleCompany : Company :=
  { owner := "Asha Rao", company := "Acme Corp", city := "Pune",
    email := "asha@acme.com" }

/-- The observable part of a `fetch` response (App.tsx lines 47-52): HTTP
success flag (`res.ok`), the `content-type` header (absent = `null`), and the
result of `res.json()` — `Except.error` models a rejected body parse. -/
structure HttpResponse where
  ok : Bool
  contentType : Option String
  json : Except String (List Company)
deriving Repr

/-- The outcome of one `fetch` call: either the promise rejects (network
error, caught at App.tsx line 55) or a response arrives. -/
inductive FetchOutcome where
  | netError (msg : String)
  | response (r : HttpResponse)
deriving Repr

/-- App.tsx line 49: `contentType?.includes("application/json")` — a missing
header is `null`, optional chaining yields `undefined`, which is falsy. -/
def optIncludes : Option String → String → Bool
  | none, _ => false
  | some s, sub => jsIncludes s sub

/-- App.tsx line 57: `err.message || "Something went wrong"` — an empty
message string is falsy, so the fallback text is used. -/
def orDefaultMsg (m : String) : String :=
  if m = "" then "Something went wrong" else m

/-- App.tsx lines 42-61, `fetchData`: throws `"Failed to fetch company data"`
on a non-ok status or a content type that does not include
`application/json`; otherwise parses the body, and any thrown error (network
or body parse) lands in the `catch` with its message. -/
def fetchData : FetchOutcome → Except String (List Company)
  | .netError m => .error (orDefaultMsg m)
  | .response r =>
      if !r.ok || !(optIncludes r.contentType "application/json") then
        .error "Failed to fetch company data"
      else
        match r.json with
        | .error m => .error (orDefaultMsg m)
        | .ok data => .ok data

/-- Did the load take the error path? -/
def isFailure : Except String (List Company) → Bool
  | .error _ => true
  | .ok _ => false

/-- The state transition of the fetch effect (App.tsx lines 42-63):
`setLoading(true)`, `setError(null)`, then either `setError(message)` on the
error path — `allCompanies` untouched — or `setAllCompanies(data)` on
success; `finally` clears the loading flag. -/
def applyFetch (o : FetchOutcome) (s : AppState) : AppState :=
  match fetchData o with
  | .error m => { s with loading := false, error := some m }
  | .ok data => { s with loading := false, error := none, allCompanies := data }

/-- App.tsx line 251: `{error && <div ...>{error}</div>}` — the inline error
banner renders exactly when the error state is a truthy (non-empty) string. -/
def errorBannerShown (s : AppState) : Bool :=
  match s.error with
  | some m => !(m == "")
  | none => false

/-- The dependency array of the fetch effect (App.tsx line 63) is `[]`. -/
def fetchEffectDeps : List String := []

/-- React effect semantics: an effect runs once on mount and once more after
every render at which its dependency list differs from the previous one. -/
def effectRunCount (depsAt : Nat → List String) (renders : Nat) : Nat :=
  1 + (List.range renders).countP (fun i => !(depsAt (i + 1) == depsAt i))

/-- The search/city/company `onChange` handlers (App.tsx lines 156, 162,
168): each stores the new value in its own state variable. -/
def setGlobalFilter (v : String) (s : AppState) : AppState :=
  { s with globalFilter := v }

def setLocationFilter (v : String) (s : AppState) : AppState :=
  { s with locationFilter := v }

def setCompanyFilter (v : String) (s : AppState) : AppState :=
  { s with companyFilter := v }

/-- The malformed-body response: HTTP success, correct content type, but the
JSON body fails to parse, so `res.json()` rejects. -/
def badParseHttp : HttpResponse :=
  { ok := true, contentType := some "application/json",
    json := .error "Unexpected end of JSON input" }

/-- A well-formed response: success status, `application/json` content type,
and a body that parses to a one-record array. -/
def goodHttp : HttpResponse :=
  { ok := true, contentType := some "application/json",
    json := .ok [sampleCompany] }

/-- The state handled by the end-of-list effect (App.tsx lines 83-95):
whether the message is visible, and the pending hide timer recorded as the
absolute time (ms) at which it fires. -/
structure EndMsgState where
  showEnd : Bool
  pending : Option Nat
deriving Repr, DecidableEq

/-- One run, at time `t`, of the effect at App.tsx lines 83-95 (dependencies
`[loading, hasMore]`): the cleanup of the previous run has cleared any
pending timer; if loading has finished and there is nothing more to load,
the message is shown and a 3000 ms hide timer is scheduled. -/
def endEffect (t : Nat) (loading hasMore : Bool) (s : EndMsgState) :
    EndMsgState :=
  if loading = false ∧ hasMore = false then
    { showEnd := true, pending := some (t + 3000) }
  else
    { s with pending := none }

/-- The hide timer (App.tsx lines 89-91) firing at time `t`:
`setShowEndMessage(false)`. -/
def endTimerFire (t : Nat) (s : EndMsgState) : EndMsgState :=
  match s.pending with
  | some d => if d = t then { showEnd := false, pending := none } else s
  | none => s

/-- A timeline event: the effect dependencies `[loading, hasMore]` changed at
time `t` (so the effect re-runs), or time `t` is reached (a due timer
fires). -/
inductive UiEvent where
  | depsChange (t : Nat) (loading hasMore : Bool)
  | timerCheck (t : Nat)
deriving Repr, DecidableEq

def endMsgStep (s : EndMsgState) : UiEvent → EndMsgState
  | .depsChange t l h => endEffect t l h s
  | .timerCheck t => endTimerFire t s

def runEndMsg (events : List UiEvent) : EndMsgState :=
  events.foldl endMsgStep { showEnd := false, pending := none }

/-- The number of effect runs of a timeline that call
`setShowEndMessage(true)` (App.tsx line 87). -/
def countShows (events : List UiEvent) : Nat :=
  events.countP (fun e =>
    match e with
    | .depsChange _ l h => !l && !h
    | .timerCheck _ => false)

/-- The `[loading, hasMore]` timeline of a session that scrolls a 15-record
dataset to its end: mount, the fetch (loading on, then off after 1000 ms),
the first page load (10 of 15 shown), the final page load after which
`hasMore` is false, and the passage of 3000 ms after the last change. -/
def endSessionTrace : List UiEvent :=
  [ .depsChange 0 false true,
    .depsChange 1 true true,
    .depsChange 1001 false true,
    .depsChange 1002 true true,
    .depsChange 2002 false true,
    .depsChange 2003 true false,
    .depsChange 3003 false false,
    .timerCheck 6003 ]

/-- JS `[...new Set(xs)]` (App.tsx lines 144-145): the distinct values of
`xs` in first-occurrence order; `seen` holds the values already emitted. -/
def dedupFirst (seen : List String) : List String → List String
  | [] => []
  | a :: t =>
      if a ∈ seen then dedupFirst seen t else a :: dedupFirst (a :: seen) t

/-- App.tsx line 144: the selectable city options. -/
def locations (allCompanies : List Company) : List String :=
  dedupFirst [] (allCompanies.map (fun c => c.city))

/-- App.tsx line 145: the selectable company options. -/
def companyNames (allCompanies : List Company) : List String :=
  dedupFirst [] (allCompanies.map (fun c => c.company))

/-- custom-select.tsx lines 60-77: the dropdown renders the placeholder row
first — selecting it calls `handleSelect("")` — followed by one row per
option value. -/
def dropdownValues (options : List String) : List String := "" :: options

theorem charsStartsWith_iff (need hay : List Char) :
    charsStartsWith need hay = true ↔ ∃ r, hay = need ++ r := by
  induction need generalizing hay with
  | nil =>
    simp [charsStartsWith]
  | cons a as ih =>
    cases hay with
    | nil =>
      simp [charsStartsWith]
    | cons b bs =>
      simp only [charsStartsWith, Bool.and_eq_true, beq_iff_eq, ih,
        List.cons_append, List.cons.injEq]
      constructor
      · rintro ⟨hab, r, hr⟩
        exact ⟨r, hab.symm, hr⟩
      · rintro ⟨r, hba, hr⟩
        exact ⟨hba.symm, r, hr⟩

theorem charsIncludes_iff (hay need : List Char) :
    charsIncludes hay need = true ↔ SubstringOf need hay := by
  unfold SubstringOf
  induction hay with
  | nil =>
    simp only [charsIncludes, List.isEmpty_iff]
    constructor
    · rintro rfl
      exact ⟨[], [], rfl⟩
    · rintro ⟨l, r, hr⟩
      rcases List.append_eq_nil.mp hr.symm with ⟨h1, h2⟩
      rcases List.append_eq_nil.mp h1 with ⟨_, h3⟩
      exact h3
  | cons h t ih =>
    simp only [charsIncludes, Bool.or_eq_true, charsStartsWith_iff, ih]
    constructor
    · rintro (⟨r, hr⟩ | ⟨l, r, hr⟩)
      · exact ⟨[], r, by simp [hr]⟩
      · exact ⟨h :: l, r, by simp [hr]⟩
    · rintro ⟨l, r, hr⟩
      cases l with
      | nil =>
        exact Or.inl ⟨r, by simpa using hr⟩
      | cons x xs =>
        rw [List.cons_append, List.cons_append] at hr
        injection hr with h1 h2
        exact Or.inr ⟨xs, r, by simpa using h2⟩

theorem charsIncludes_nil (hay : List Char) : charsIncludes hay [] = true := by
  cases hay <;> simp [charsIncludes, charsStartsWith]

theorem matchesSearch_empty (c : Company) : matchesSearch "" c = true := by
  have h : (jsToLower "").data = [] := rfl
  unfold matchesSearch jsIncludes
  rw [h]
  simp [charsIncludes_nil]

theorem matchesCity_iff (lf : String) (c : Company) :
    matchesCity lf c = true ↔ (lf = "" ∨ c.city = lf) := by
  unfold matchesCity
  by_cases h : lf = "" <;> simp [h]

theorem matchesCompany_iff (cf : String) (c : Company) :
    matchesCompany cf c = true ↔ (cf = "" ∨ c.company = cf) := by
  unfold matchesCompany
  by_cases h : cf = "" <;> simp [h]

/-- C1: with both categorical filters empty, the text filter keeps a record
if and only if the lowercased owner field or the lowercased company field
contains the lowercased search string as a contiguous substring; city and
email do not appear in the condition. -/
theorem text_filter_keeps_iff (q : String) (comps : List Company) (c : Company) :
    c ∈ filteredData q "" "" comps ↔
      c ∈ comps ∧
        (SubstringOf (jsToLower q).data (jsToLower c.owner).data ∨
         SubstringOf (jsToLower q).data (jsToLower c.company).data) := by
  unfold filteredData
  rw [List.mem_filter]
  simp [matchesSearch, jsIncludes, charsIncludes_iff, matchesCity, matchesCompany]

/-- C2: a record passes `filteredData` exactly when it passes the text search
and, for each non-empty categorical filter, its corresponding field equals the
filter value by exact string equality; an empty filter value keeps every
record, and the three conditions are a conjunction. -/
theorem category_filters_exact_and_conj (q lf cf : String)
    (comps : List Company) (c : Company) :
    c ∈ filteredData q lf cf comps ↔
      c ∈ comps ∧ matchesSearch q c = true ∧
        (lf = "" ∨ c.city = lf) ∧ (cf = "" ∨ c.company = cf) := by
  unfold filteredData
  rw [List.mem_filter]
  simp [matchesCity_iff, matchesCompany_iff, and_assoc]

/-- C9: with the search string and both categorical filters empty, the filter
pipeline is the identity on the displayed list. -/
theorem empty_filters_identity (comps : List Company) :
    filteredData "" "" "" comps = comps := by
  unfold filteredData
  rw [List.filter_eq_self]
  intro c _
  simp [matchesSearch_empty, matchesCity, matchesCompany]

theorem loadPage_allCompanies (s : AppState) :
    (loadPage s).allCompanies = s.allCompanies := by
  unfold loadPage
  split <;> rfl

theorem loadPage_page (s : AppState) : (loadPage s).page = s.page := by
  unfold loadPage
  split <;> rfl

theorem scrollStep_allCompanies (s : AppState) :
    (scrollStep s).allCompanies = s.allCompanies := by
  unfold scrollStep
  split
  · rw [loadPage_allCompanies]
  · rfl

theorem pagingState_allCompanies (all : List Company) (n : Nat) :
    (pagingState all n).allCompanies = all := by
  induction n with
  | zero =>
    unfold pagingState
    split
    · rfl
    · rw [loadPage_allCompanies]
  | succ n ih =>
    unfold pagingState
    rw [scrollStep_allCompanies, ih]

theorem scrollStep_page (s : AppState) :
    (scrollStep s).page = s.page ∨ (scrollStep s).page = s.page + 1 := by
  unfold scrollStep
  split
  · rw [loadPage_page]
    exact Or.inr rfl
  · exact Or.inl rfl

theorem loadPage_nil (s : AppState) (h : s.allCompanies = []) :
    loadPage s = s := by
  unfold loadPage
  rw [if_pos]
  exact Or.inl (by rw [h]; rfl)

/-- A core step fact: when `loadPage` actually runs (non-empty dataset,
`hasMore` still true), the resulting displayed list is the prefix of length
`min (page * pageSize) N` and `hasMore` becomes `displayed < N`. -/
theorem loadPage_run (all : List Company) (s : AppState)
    (hsall : s.allCompanies = all) (hsmore : s.hasMore = true)
    (hne : all ≠ []) :
    (loadPage s).companies =
      all.take (min ((loadPage s).page * pageSize) all.length) ∧
    ((loadPage s).hasMore = true ↔
      (loadPage s).companies.length < all.length) := by
  have hlen : all.length ≠ 0 := by
    simpa [List.length_eq_zero] using hne
  unfold loadPage
  rw [if_neg (by simp [hsall, hlen, hsmore])]
  rw [hsall]
  refine ⟨rfl, ?_⟩
  simp only [List.length_take, decide_eq_true_eq]
  omega

theorem scrollStep_nil (s : AppState) (h : s.allCompanies = []) :
    (scrollStep s).companies = s.companies ∧
    (scrollStep s).hasMore = s.hasMore := by
  unfold scrollStep
  split
  · rw [loadPage_nil { s with page := s.page + 1, loading := false } h]
    exact ⟨rfl, rfl⟩
  · exact ⟨rfl, rfl⟩

theorem paging_nil (n : Nat) :
    (pagingState [] n).companies = [] ∧ (pagingState [] n).hasMore = true := by
  induction n with
  | zero =>
    exact ⟨rfl, rfl⟩
  | succ n ih =>
    have h := scrollStep_nil (pagingState [] n) (pagingState_allCompanies [] n)
    unfold pagingState
    rw [h.1, h.2]
    exact ⟨ih.1, ih.2⟩

/-- The paging invariant: the displayed list is the prefix of the dataset of
length `min (page * pageSize) N`, and (for a non-empty dataset) `hasMore`
holds exactly when that prefix is strictly shorter than the dataset. -/
theorem pagingQ (all : List Company) (n : Nat) :
    (pagingState all n).companies =
      all.take (min ((pagingState all n).page * pageSize) all.length) ∧
    (all ≠ [] →
      ((pagingState all n).hasMore = true ↔
        (pagingState all n).companies.length < all.length)) := by
  induction n with
  | zero =>
    unfold pagingState
    split
    · rename_i hzero
      have hall : all = [] := List.length_eq_zero.mp hzero
      subst hall
      exact ⟨(List.take_nil).symm, fun hne => absurd rfl hne⟩
    · rename_i hzero
      have hne : all ≠ [] := by
        intro h
        exact hzero (by simp [h])
      have h := loadPage_run all { initialAppState with allCompanies := all }
        rfl rfl hne
      exact ⟨h.1, fun _ => h.2⟩
  | succ n ih =>
    by_cases hne : all = []
    · subst hne
      refine ⟨?_, fun hc => absurd rfl hc⟩
      rw [(paging_nil (n + 1)).1, List.take_nil]
    · unfold pagingState scrollStep
      split
      · rename_i hmt
        have h := loadPage_run all
          { pagingState all n with
            page := (pagingState all n).page + 1, loading := false }
          (pagingState_allCompanies all n) hmt hne
        exact ⟨h.1, fun _ => h.2⟩
      · exact ⟨ih.1, fun h' => ih.2 h'⟩

/-- C3: with page size 10, every reachable paging state displays exactly the
prefix of the dataset of length `min (page * pageSize) N`, and each scroll
step extends the displayed list by the next batch of at most `pageSize`
records (empty or smaller only at the end of the dataset). -/
theorem paging_prefix_increments (all : List Company) (n : Nat) :
    (pagingState all n).companies =
      all.take (min ((pagingState all n).page * pageSize) all.length) ∧
    (pagingState all (n + 1)).companies =
      (pagingState all n).companies ++ nextChunk all n ∧
    (nextChunk all n).length ≤ pageSize := by
  have hpq := (pagingQ all n).1
  have hpq' := (pagingQ all (n + 1)).1
  have hpage : (pagingState all (n + 1)).page = (pagingState all n).page ∨
      (pagingState all (n + 1)).page = (pagingState all n).page + 1 :=
    scrollStep_page (pagingState all n)
  have hmono : (pagingState all n).page * pageSize ≤
      (pagingState all (n + 1)).page * pageSize := by
    rcases hpage with h | h
    · rw [h]
    · rw [h, Nat.succ_mul]
      exact Nat.le_add_right _ _
  have hbound : (pagingState all (n + 1)).page * pageSize ≤
      (pagingState all n).page * pageSize + pageSize := by
    rcases hpage with h | h
    · rw [h]
      exact Nat.le_add_right _ _
    · rw [h, Nat.succ_mul]
  have hlen_n : (pagingState all n).companies.length =
      min ((pagingState all n).page * pageSize) all.length := by
    rw [hpq, List.length_take]
    omega
  refine ⟨hpq, ?_, ?_⟩
  · unfold nextChunk
    conv_lhs => rw [← List.take_append_drop
      ((pagingState all n).companies.length) ((pagingState all (n + 1)).companies)]
    congr 1
    rw [hlen_n, hpq', List.take_take, hpq]
    congr 1
    omega
  · unfold nextChunk
    rw [List.length_drop, hpq', List.length_take, hlen_n]
    omega

/-- C8: after every actual run of `loadPage` (the dataset is non-empty
whenever the effect calls it), the displayed list is a prefix of the dataset,
`hasMore` holds exactly when that prefix is strictly shorter than the
dataset, and once everything is displayed a further scroll step leaves the
displayed list unchanged. -/
theorem paging_prefix_hasMore_inv (all : List Company) (n : Nat)
    (h : all ≠ []) :
    (pagingState all n).companies <+: all ∧
    ((pagingState all n).hasMore = true ↔
      (pagingState all n).companies.length < all.length) ∧
    ((pagingState all n).companies.length = all.length →
      (pagingState all (n + 1)).companies = (pagingState all n).companies) := by
  have hpq := pagingQ all n
  refine ⟨?_, hpq.2 h, ?_⟩
  · rw [hpq.1]
    exact ⟨all.drop _, List.take_append_drop _ _⟩
  · intro hfull
    have hnm : (pagingState all n).hasMore = false := by
      cases hb : (pagingState all n).hasMore
      · rfl
      · have := (hpq.2 h).mp hb
        omega
    show (scrollStep (pagingState all n)).companies = _
    unfold scrollStep
    rw [if_neg (by simp [hnm])]

theorem paging_prefix_hasMore_inv_witness :
    ([sampleCompany] ≠ ([] : List Company)) ∧
    ((pagingState [sampleCompany] 0).companies <+: [sampleCompany] ∧
     ((pagingState [sampleCompany] 0).hasMore = true ↔
       (pagingState [sampleCompany] 0).companies.length <
         ([sampleCompany] : List Company).length) ∧
     ((pagingState [sampleCompany] 0).companies.length =
         ([sampleCompany] : List Company).length →
       (pagingState [sampleCompany] 1).companies =
         (pagingState [sampleCompany] 0).companies)) :=
  ⟨by simp, paging_prefix_hasMore_inv [sampleCompany] 0 (by simp)⟩

theorem effectRunCount_const (d : List String) (n : Nat) :
    effectRunCount (fun _ => d) n = 1 := by
  unfold effectRunCount
  have h : (List.range n).countP (fun _ => !(d == d)) = 0 := by
    simp [List.countP_eq_zero]
  rw [h]

theorem orDefaultMsg_ne_empty (m : String) : orDefaultMsg m ≠ "" := by
  unfold orDefaultMsg
  split
  · decide
  · assumption

theorem fetchData_error_ne_empty (o : FetchOutcome) (m : String)
    (h : fetchData o = .error m) : m ≠ "" := by
  cases o with
  | netError m' =>
    simp only [fetchData] at h
    injection h with h'
    rw [← h']
    exact orDefaultMsg_ne_empty m'
  | response r =>
    simp only [fetchData] at h
    by_cases hcond :
        (!r.ok || !(optIncludes r.contentType "application/json")) = true
    · rw [if_pos hcond] at h
      injection h with h'
      rw [← h']
      decide
    · rw [if_neg hcond] at h
      cases hj : r.json with
      | error m' =>
        rw [hj] at h
        injection h with h'
        rw [← h']
        exact orDefaultMsg_ne_empty m'
      | ok d =>
        rw [hj] at h
        cases h

/-- C4 counterexample: a response with a success status and an
`application/json` content type whose body fails to parse still takes the
error path, so "failure iff non-success status, wrong content type, or
network error" is false at this input. -/
theorem fetch_failure_iff_cex :
    isFailure (fetchData (.response badParseHttp)) = true ∧
    badParseHttp.ok = true ∧
    optIncludes badParseHttp.contentType "application/json" = true :=
  ⟨rfl, rfl, rfl⟩

/-- C4 (amended): the load takes the error path exactly when the response has
a non-success status, or its content type does not include
`application/json`, or a network error is thrown, or the JSON body fails to
parse; otherwise the parsed array is returned. -/
theorem fetch_failure_iff_amended (o : FetchOutcome) :
    (isFailure (fetchData o) = true ↔
      (match o with
       | .netError _ => True
       | .response r =>
           r.ok = false ∨
           optIncludes r.contentType "application/json" = false ∨
           ∃ m, r.json = .error m)) ∧
    (∀ r d, o = .response r → r.ok = true →
      optIncludes r.contentType "application/json" = true →
      r.json = .ok d → fetchData o = .ok d) := by
  constructor
  · cases o with
    | netError m =>
      simp [fetchData, isFailure]
    | response r =>
      cases hok : r.ok <;>
        cases hct : optIncludes r.contentType "application/json" <;>
          cases hj : r.json <;>
            simp [fetchData, isFailure, hok, hct, hj]
  · rintro r d rfl hok hct hj
    simp [fetchData, hok, hct, hj]

theorem fetch_failure_iff_amended_witness :
    fetchData (.response goodHttp) = .ok [sampleCompany] :=
  (fetch_failure_iff_amended (.response goodHttp)).2
    goodHttp [sampleCompany] rfl rfl rfl rfl

/-- C5: on any fetch failure the error state holds the failure message, the
inline banner renders, the dataset state is untouched, and the fetch effect
(empty dependency array) runs exactly once however many renders happen. -/
theorem fetch_error_path (o : FetchOutcome) (s : AppState) (m : String)
    (n : Nat) (h : fetchData o = .error m) :
    (applyFetch o s).error = some m ∧
    (applyFetch o s).allCompanies = s.allCompanies ∧
    errorBannerShown (applyFetch o s) = true ∧
    effectRunCount (fun _ => fetchEffectDeps) n = 1 := by
  have hne := fetchData_error_ne_empty o m h
  unfold applyFetch
  rw [h]
  refine ⟨rfl, rfl, ?_, effectRunCount_const _ _⟩
  unfold errorBannerShown
  simp [hne]

theorem fetch_error_path_witness :
    (applyFetch (.netError "network down") initialAppState).error =
      some "network down" ∧
    (applyFetch (.netError "network down") initialAppState).allCompanies =
      initialAppState.allCompanies ∧
    errorBannerShown (applyFetch (.netError "network down") initialAppState) =
      true ∧
    effectRunCount (fun _ => fetchEffectDeps) 0 = 1 :=
  fetch_error_path (.netError "network down") initialAppState "network down" 0
    rfl

/-- C7: the dataset is written only by the single mount-time fetch — the
fetch effect's dependency array is empty so it runs exactly once — and no
paging, search or filter operation changes `allCompanies` (the filter/sort
pipeline `filteredData` is a pure function of the displayed list and does not
write state at all). -/
theorem dataset_read_once_frame (all : List Company) (n : Nat) (v : String)
    (s : AppState) :
    (pagingState all n).allCompanies = all ∧
    (loadPage s).allCompanies = s.allCompanies ∧
    (scrollStep s).allCompanies = s.allCompanies ∧
    (setGlobalFilter v s).allCompanies = s.allCompanies ∧
    (setLocationFilter v s).allCompanies = s.allCompanies ∧
    (setCompanyFilter v s).allCompanies = s.allCompanies ∧
    effectRunCount (fun _ => fetchEffectDeps) n = 1 :=
  ⟨pagingState_allCompanies all n, loadPage_allCompanies s,
   scrollStep_allCompanies s, rfl, rfl, rfl, effectRunCount_const _ _⟩

/-- C6: whenever an effect run sees `loading = false` and `hasMore = false`
the end-of-list message is shown with its hide timer set exactly 3000 ms
ahead, and when that timer fires the message is hidden; in the canonical
end-of-list session the message is shown exactly once (right after the last
page finishes loading) and is hidden again once the 3000 ms delay passes. -/
theorem end_message_shows_once_and_hides (t : Nat) (s : EndMsgState) :
    endEffect t false false s =
      { showEnd := true, pending := some (t + 3000) } ∧
    endTimerFire (t + 3000) (endEffect t false false s) =
      { showEnd := false, pending := none } ∧
    countShows endSessionTrace = 1 ∧
    runEndMsg (endSessionTrace.take 7) =
      { showEnd := true, pending := some 6003 } ∧
    runEndMsg endSessionTrace = { showEnd := false, pending := none } := by
  refine ⟨?_, ?_, by decide, by decide, by decide⟩
  · simp [endEffect]
  · simp [endEffect, endTimerFire]

theorem dedupFirst_mem (l : List String) (seen : List String) (x : String) :
    x ∈ dedupFirst seen l ↔ x ∈ l ∧ x ∉ seen := by
  induction l generalizing seen with
  | nil =>
    simp [dedupFirst]
  | cons a t ih =>
    unfold dedupFirst
    split
    · rename_i ha
      rw [ih]
      simp only [List.mem_cons]
      constructor
      · rintro ⟨hx, hns⟩
        exact ⟨Or.inr hx, hns⟩
      · rintro ⟨hx | hx, hns⟩
        · subst hx
          exact absurd ha hns
        · exact ⟨hx, hns⟩
    · rename_i ha
      simp only [List.mem_cons, ih]
      constructor
      · rintro (rfl | ⟨hx, hns⟩)
        · exact ⟨Or.inl rfl, ha⟩
        · exact ⟨Or.inr hx, fun hs => hns (Or.inr hs)⟩
      · rintro ⟨rfl | hx, hns⟩
        · exact Or.inl rfl
        · by_cases hxa : x = a
          · exact Or.inl hxa
          · exact Or.inr ⟨hx, by simp [hxa, hns]⟩

theorem dedupFirst_nodup (l seen : List String) : (dedupFirst seen l).Nodup := by
  induction l generalizing seen with
  | nil =>
    simp [dedupFirst]
  | cons a t ih =>
    unfold dedupFirst
    split
    · exact ih seen
    · rw [List.nodup_cons]
      refine ⟨?_, ih (a :: seen)⟩
      intro hmem
      rw [dedupFirst_mem] at hmem
      exact hmem.2 (List.mem_cons_self a seen)

theorem dedupFirst_sublist (l seen : List String) :
    List.Sublist (dedupFirst seen l) l := by
  induction l generalizing seen with
  | nil =>
    simp [dedupFirst]
  | cons a t ih =>
    unfold dedupFirst
    split
    · exact (ih seen).trans (List.sublist_cons_self a t)
    · exact List.Sublist.cons₂ a (ih (a :: seen))

/-- C10: the city options are the distinct city values of the dataset in
first-occurrence order (no duplicates, exactly the cities that occur, in a
subsequence of dataset order), and likewise the company options; every
selectable non-empty option value occurs in some record of the dataset; the
first rendered dropdown row is the placeholder, and selecting it resets the
corresponding filter to the empty string. -/
theorem dropdown_options_characterization (all : List Company) (s : AppState) :
    (locations all).Nodup ∧
    (∀ x, x ∈ locations all ↔ x ∈ all.map (fun c => c.city)) ∧
    List.Sublist (locations all) (all.map (fun c => c.city)) ∧
    (companyNames all).Nodup ∧
    (∀ x, x ∈ companyNames all ↔ x ∈ all.map (fun c => c.company)) ∧
    List.Sublist (companyNames all) (all.map (fun c => c.company)) ∧
    (∀ x, x ∈ locations all → ∃ c ∈ all, c.city = x) ∧
    (∀ x, x ∈ companyNames all → ∃ c ∈ all, c.company = x) ∧
    (dropdownValues (locations all)).head? = some "" ∧
    (dropdownValues (companyNames all)).head? = some "" ∧
    (setLocationFilter "" s).locationFilter = "" ∧
    (setCompanyFilter "" s).companyFilter = "" := by
  refine ⟨dedupFirst_nodup _ _, ?_, dedupFirst_sublist _ _,
    dedupFirst_nodup _ _, ?_, dedupFirst_sublist _ _, ?_, ?_,
    rfl, rfl, rfl, rfl⟩
  · intro x
    unfold locations
    rw [dedupFirst_mem]
    simp
  · intro x
    unfold companyNames
    rw [dedupFirst_mem]
    simp
  · intro x hx
    unfold locations at hx
    rw [dedupFirst_mem] at hx
    rcases List.mem_map.mp hx.1 with ⟨c, hc, rfl⟩
    exact ⟨c, hc, rfl⟩
  · intro x hx
    unfold companyNames at hx
    rw [dedupFirst_mem] at hx
    rcases List.mem_map.mp hx.1 with ⟨c, hc, rfl⟩
    exact ⟨c, hc, rfl⟩

theorem dropdown_options_characterization_witness :
    "Pune" ∈ locations [sampleCompany] ∧
    ∃ c ∈ [sampleCompany], c.city = "Pune" :=
  ⟨by decide,
   (dropdown_options_characterization [sampleCompany]
      initialAppState).2.2.2.2.2.2.1 "Pune" (by decide)⟩
